import Mathlib

/-!
Verification of the BlitzMail client library and notification daemon
(creachadair/blitzmail).  Python byte strings are modelled as lists of
natural numbers (the byte values); times are modelled as integers.
Each definition embeds the Python function of the same name.
-/

namespace BlitzMail

/-- ASCII lower-casing of one byte, as Python str.lower acts on ASCII text. -/
def lowerByte (b : Nat) : Nat := if 65 ≤ b ∧ b ≤ 90 then b + 32 else b

/-- Python s.lower() on a byte string. -/
def lowerStr (s : List Nat) : List Nat := s.map lowerByte

/-- Decimal digits of n as bytes, most significant first; structured on fuel
so that the kernel can evaluate it.  repNatAux fuel n is str(n) whenever
n < fuel. -/
def repNatAux : Nat → Nat → List Nat
  | 0, _ => []
  | fuel + 1, n => if n < 10 then [48 + n] else repNatAux fuel (n / 10) ++ [48 + n % 10]

/-- Python str(n) for a natural number n, as a byte string. -/
def repNat (n : Nat) : List Nat := repNatAux (n + 1) n

/-- Python int(t) on a byte string of decimal digits. -/
def parseNat (t : List Nat) : Nat := t.foldl (fun a b => 10 * a + (b - 48)) 0

/-- Python s.split(c) on a byte string, for a one-byte separator. -/
def splitOnByte (sep : Nat) : List Nat → List (List Nat)
  | [] => [[]]
  | b :: rest =>
    match splitOnByte sep rest with
    | [] => [[b]]
    | cur :: done => if b = sep then [] :: cur :: done else (b :: cur) :: done

/-- Python str.join(',', ts) on byte strings. -/
def joinComma : List (List Nat) → List Nat
  | [] => []
  | [t] => t
  | t :: ts => t ++ 44 :: joinComma ts

/-- Big-endian 16-bit value of two bytes (struct format H). -/
def be16 (a b : Nat) : Nat := a * 256 + b

/-- Big-endian 32-bit value of four bytes (struct format I). -/
def be32 (a b c d : Nat) : Nat := ((a * 256 + b) * 256 + c) * 256 + d

/-- struct.pack of one 32-bit big-endian integer as four bytes. -/
def be32bytes (n : Nat) : List Nat :=
  [n / 2 ^ 24 % 256, n / 2 ^ 16 % 256, n / 2 ^ 8 % 256, n % 256]

/-- Unpack a run of big-endian 32-bit integers (struct format I repeated). -/
def unpack32s : List Nat → List Nat
  | a :: b :: c :: d :: rest => be32 a b c d :: unpack32s rest
  | _ => []

/-! ## packet.py -/

/-- Python exceptions arising in packet.py. -/
inductive PyExc where
  | valueError (msg : String)
  | structError
  | nameError (name : String)
  | indexError
  deriving DecidableEq

/-- parse_register_req (packet.py).  The module imports the struct module
only under the name _struct; the handler for the service-code unpack reads
the unbound name struct, so a struct.error there surfaces as a NameError. -/
def parse_register_req (pkt : List Nat) : Except PyExc (List Nat × Nat × List Nat) :=
  match pkt with
  | [] => .error .indexError
  | u :: _ =>
    if pkt.length < u + 1 then .error (.valueError "Invalid packet data:  Truncated UID")
    else
      let uid := (pkt.drop 1).take u
      let rest := pkt.drop (u + 1)
      match rest.take 6 with
      | [p1, p2, n1, n2, n3, n4] =>
        if rest.length - 6 = 4 * be32 n1 n2 n3 n4 then
          .ok (uid, be16 p1 p2, unpack32s (rest.drop 6))
        else .error (.nameError "struct")
      | _ => .error .structError

/-- ATP packet type, decoded from the kind bits of the type/flag byte
(packet.py ATP_TYPE lookup; a value with no matching name stays numeric). -/
inductive ATPKind where
  | req
  | rsp
  | rel
  | unknown (v : Nat)
  deriving DecidableEq

/-- Name lookup over ATP_TYPE for the masked kind bits. -/
def kindOfBits (knd : Nat) : ATPKind :=
  if knd = 0x40 then .req
  else if knd = 0x80 then .rsp
  else if knd = 0xC0 then .rel
  else .unknown knd

/-- parse_atp_packet (packet.py): a packet shorter than nine bytes, or whose
first byte is not the DDP tag 0x03, raises ValueError (modelled as error);
otherwise the header fields and payload are returned.  ATP flags are kept as
the masked bit pattern. -/
def parse_atp_packet (pkt : List Nat) :
    Except String (ATPKind × Nat × Nat × Nat × List Nat × List Nat) :=
  match pkt with
  | t :: kfl :: seq :: t1 :: t2 :: u1 :: u2 :: u3 :: u4 :: pdata =>
    if t ≠ 0x03 then .error "Invalid packet data:  Packet type is not ATP"
    else .ok (kindOfBits (kfl &&& 0xC0), kfl &&& 0x3F, seq, be16 t1 t2, [u1, u2, u3, u4], pdata)
  | _ => .error "Invalid packet data:  Truncated header"

/-- make_notify_req (packet.py): '>III' of (service, userid, messid)
followed by the optional opaque data. -/
def make_notify_req (service userid messid : Nat) (data : Option (List Nat)) : List Nat :=
  be32bytes service ++ be32bytes userid ++ be32bytes messid ++ data.getD []

/-! ## bmesg.py -/

/-- The offset in seconds between 01-Jan-1970 and 01-Jan-1904
(bmesg.py _time_offset). -/
def time_offset : Int := -2082826800

/-- sys.maxint, imported as INT_MAX in bmesg.py, on the 32-bit platform in
which the spec states its arithmetic. -/
def INT_MAX : Int := 2 ^ 31 - 1

/-- The argument of BlitzSummary.set_expiration: a Unix timestamp or a
string. -/
inductive ExpireArg where
  | int (n : Int)
  | str (s : List Nat)

/-- The byte string "never". -/
def neverStr : List Nat := [110, 101, 118, 101, 114]

/-- BlitzSummary._parse_expire (bmesg.py).  The result is the numeric
argument sent with the EXPR command; none stands for the date-string branch,
which delegates to time.strptime and is outside the claims. -/
def parse_expire : ExpireArg → Option Int
  | .int n => some (n - time_offset)
  | .str s => if lowerStr s = neverStr then some (2 * INT_MAX + 1) else none

/-- BlitzSummary._parse_response, expiration field: the summary line's
eleventh group plus _time_offset. -/
def parse_response_expires (serverVal : Int) : Int := serverVal + time_offset

/-- BlitzSummary._move_message, expiration update: the server's reply value
replaces expires verbatim when it is not -1 and the operation is not COPY;
no epoch conversion is applied. -/
def move_message_expires (op : String) (data : Int) (expires : Int) : Int :=
  if data ≠ -1 ∧ op ≠ "COPY" then data else expires

/-! ## bfold.py -/

/-- The range argument rng built by BlitzFolder.get_summaries: '1-$' when no
index is given, a single index, or a lo-hi pair (lo defaulting to 1). -/
def fsum_range (lo hi : Option Nat) : List Nat :=
  match hi with
  | none =>
    match lo with
    | none => [49, 45, 36]
    | some l => repNat l
  | some h => repNat (lo.getD 1) ++ 45 :: repNat h

/-- The FSUM command line sent by BlitzFolder.get_summaries. -/
def fsum_cmd (folderId : Nat) (lo hi : Option Nat) : List (List Nat) :=
  [[70, 83, 85, 77], repNat folderId, fsum_range lo hi]

/-- BlitzFolder.get_summaries: for a folder whose count is 0 the empty list
is returned before any command is issued; otherwise a single FSUM command is
sent and the server's summary lines (abstracted as responses) are collected.
The first component is the list of commands issued. -/
def get_summaries (folderId : Nat) (count : Nat) (lo hi : Option Nat)
    (responses : List α) : List (List (List Nat)) × List α :=
  if count = 0 then ([], [])
  else ([fsum_cmd folderId lo hi], responses)

/-! ## notifyd.py: TCP server permissions -/

/-- NotifyTCPServer.check_perms: only the operations named list and
broadcast are gated; every other operation tag is allowed outright.  For the
gated ones, an admin must be configured and the authenticated uid must equal
it. -/
def check_perms (adm auth : Option Int) (operation : String) : Bool :=
  if operation ≠ "list" ∧ operation ≠ "broadcast" then true
  else
    match adm with
    | none => false
    | some a => auth == some a

/-! ## ntypes.py: the reliable-datagram (ATP over UDP) transport -/

/-- The argument tuple a QElem holds for make_atp_packet: kind, flags (as a
bit mask), sequence number, transaction id, user data and optional packet
data. -/
structure ATPData where
  kind : ATPKind
  flags : Nat
  seq : Nat
  tid : Nat
  udata : List Nat
  pdata : Option (List Nat)
  deriving DecidableEq

/-- A packet queue element (ntypes.py QElem): creation time _orig, last-use
time _time (initialised to 1), transaction id, packet tuple, and destination
address.  Addresses are (ip, port) pairs with the ip abstracted to a
number. -/
structure QElem where
  orig : Int
  time : Int
  tid : Nat
  data : ATPData
  addr : Nat × Nat
  deriving DecidableEq

/-- QElem.is_due (ntypes.py). -/
def QElem.is_due (e : QElem) (clk ival : Int) : Bool := clk - ival > e.time

/-- QElem.age at the current clock (ntypes.py reads time.time()). -/
def QElem.age (e : QElem) (now : Int) : Int := now - e.orig

/-- QElem.touch, as called from QElem.send (ntypes.py). -/
def QElem.touch (e : QElem) (clk : Int) : QElem := { e with time := clk }

/-- One pass of ATPObject._sender over the retransmission queue at clock
now: an element older than maxage is collected as dead (and not sent), an
element due for retransmission (RETRANS interval 20) is sent and touched,
and the dead positions are popped afterwards.  Returns the surviving queue
and the list of elements sent, in order. -/
def senderPass (maxage now : Int) : List QElem → List QElem × List QElem
  | [] => ([], [])
  | e :: rest =>
    let out := senderPass maxage now rest
    if e.age now > maxage then out
    else if e.is_due now 20 then (e.touch now :: out.1, e :: out.2)
    else (e :: out.1, out.2)

/-- The transport state the reader and writer threads share: the
retransmission queue and the release queue (ntypes.py ATPObject). -/
structure AtpState where
  rqueue : List QElem
  lqueue : List QElem
  deriving DecidableEq

/-- What one iteration of ATPObject._receiver does with a datagram. -/
inductive RecvOutcome where
  | next (st : AtpState)
  | eof
  | exc (e : String)
  deriving DecidableEq

/-- The Response queue entry built by the receiver for a handled request
(ntypes.py Response): same transaction data with kind rsp and the handler's
reply as packet data. -/
def mkResponse (now : Int) (flags seq tid : Nat) (udata : List Nat)
    (rdata : Option (List Nat)) (sndr : Nat × Nat) : QElem :=
  { orig := now, time := 1, tid := tid,
    data := { kind := .rsp, flags := flags, seq := seq, tid := tid,
              udata := udata, pdata := rdata },
    addr := sndr }

/-- The Release queue entry built from a completed transaction (ntypes.py
Release): the element's tuple with kind rel and no packet data. -/
def mkRelease (now : Int) (tobj : QElem) : QElem :=
  { orig := now, time := 1, tid := tobj.data.tid,
    data := { tobj.data with kind := .rel, pdata := none },
    addr := tobj.addr }

/-- One iteration of ATPObject._receiver for a datagram pkt from sndr.  An
empty packet breaks the loop (eof).  The reader catches only socket.error,
so the ValueError that parse_atp_packet raises on a malformed packet
propagates and terminates the reader thread (exc).  A parsed packet is
dispatched on its kind: a req is answered when the do_req handler returns a
reply (none models a false return, some a true one, with an optional reply
string); a rsp removes the pending requests with its transaction id and, if
do_rsp accepts, queues a release; a rel removes pending responses with its
transaction id; other kinds are ignored. -/
def receiverStep
    (doReq : Nat → Nat → Nat → List Nat → List Nat → Nat × Nat → Option (Option (List Nat)))
    (doRsp : QElem → Bool) (now : Int) (st : AtpState) (pkt : List Nat)
    (sndr : Nat × Nat) : RecvOutcome :=
  if pkt = [] then .eof
  else
    match parse_atp_packet pkt with
    | .error e => .exc e
    | .ok (kind, flags, seq, tid, udata, pdata) =>
      match kind with
      | .req =>
        match doReq flags seq tid udata pdata sndr with
        | none => .next st
        | some rdata =>
          .next { st with
                  rqueue := st.rqueue ++ [mkResponse now flags seq tid udata rdata sndr] }
      | .rsp =>
        match st.rqueue.filter (fun e => e.tid == tid) with
        | [] => .next st
        | tobj :: _ =>
          let rq := st.rqueue.filter (fun e => e.tid != tid)
          if doRsp tobj then
            .next { rqueue := rq, lqueue := st.lqueue ++ [mkRelease now tobj] }
          else .next { rqueue := rq, lqueue := st.lqueue }
      | .rel => .next { st with rqueue := st.rqueue.filter (fun e => e.tid != tid) }
      | .unknown _ => .next st

/-! ## notifyd.py: UDP server -/

/-- A notice awaiting delivery (notifyd.py Notice). -/
structure Notice where
  uid : Nat
  type : Nat
  msgid : Nat
  sticky : Bool
  data : Option (List Nat)
  deriving DecidableEq

/-- A registered notification client (notifyd.py Client): identity, service
codes and the last-sent and last-received marks. -/
structure Client where
  uid : Nat
  ip : Nat
  port : Nat
  svcs : List Nat
  smark : Int
  rmark : Int
  deriving DecidableEq

/-- Client.addr (notifyd.py). -/
def Client.addr (c : Client) : Nat × Nat := (c.ip, c.port)

/-- Client.__eq__ (notifyd.py): uid, ip and port; services and marks are
ignored. -/
def clientEq (a b : Client) : Bool :=
  a.uid == b.uid && a.ip == b.ip && a.port == b.port

/-- The Notify request element built by ATPObject._addreq for
Notify(tid, who, svc, msgid, data, addr) (ntypes.py): the tuple
('req', xo, 1, tid, 'NOTI', make_notify_req(svc, who, msgid, data)). -/
def mkNotifyReq (now : Int) (tid who svc msgid : Nat) (data : Option (List Nat))
    (addr : Nat × Nat) : QElem :=
  { orig := now, time := 1, tid := tid,
    data := { kind := .req, flags := 0x20, seq := 1, tid := tid,
              udata := [78, 79, 84, 73],
              pdata := some (make_notify_req svc who msgid data) },
    addr := addr }

/-- NotifyUDPServer.send_sticky together with ATPObject._addreq: walk the
sticky store, enqueue a Notify request for every notice whose uid is 0 or
the client's and whose type is among the client's services (the transaction
id advancing mod 2^16), and sendmark the client after each send.  Returns
the updated client, the next transaction id and the enqueued requests. -/
def send_sticky (now : Int) : Nat → Client → List Notice → Client × Nat × List QElem
  | tid, c, [] => (c, tid, [])
  | tid, c, n :: rest =>
    if (n.uid = 0 ∨ n.uid = c.uid) ∧ n.type ∈ c.svcs then
      let r := send_sticky now ((tid + 1) % 65536) { c with smark := now } rest
      (r.1, r.2.1, mkNotifyReq now tid n.uid n.type n.msgid n.data c.addr :: r.2.2)
    else send_sticky now tid c rest

/-- NotifyUDPServer.add_client: build the candidate record (sendmark and
recvmark set on creation), look for an equal registered client; when found,
recvmark the stored record and use it, otherwise append the new record; then
replay the sticky store to that record.  Returns the updated client table,
the client record used, the next transaction id and the requests
enqueued. -/
def add_client (now : Int) (tid : Nat) (uid ip port : Nat) (svcs : List Nat)
    (clients : List Client) (db : List Notice) :
    List Client × Client × Nat × List QElem :=
  let nc : Client :=
    { uid := uid, ip := ip, port := port, svcs := svcs, smark := now, rmark := now }
  match clients.findIdx? (fun c => clientEq c nc) with
  | some i =>
    let out := { clients.getD i nc with rmark := now }
    let r := send_sticky now tid out db
    (clients.set i r.1, r.1, r.2.1, r.2.2)
  | none =>
    let r := send_sticky now tid nc db
    (clients ++ [r.1], r.1, r.2.1, r.2.2)

/-! ## bulls.py: the read-list compactor -/

/-- Insertion of one element into a sorted list. -/
def insertSorted (x : Nat) : List Nat → List Nat
  | [] => [x]
  | y :: ys => if x ≤ y then x :: y :: ys else y :: insertSorted x ys

/-- Python list.sort() on a list of ints: the ascending rearrangement,
modelled by insertion sort. -/
def sortNat (l : List Nat) : List Nat := l.foldr insertSorted []

/-- The while loop of Topic._make_read_list: extend a run begun at start as
long as the next sorted id is consecutive, then emit (start, end) pairs. -/
def runsAux (start cur : Nat) : List Nat → List (Nat × Nat)
  | [] => [(start, cur)]
  | y :: ys => if y = cur + 1 then runsAux start y ys else (start, cur) :: runsAux y y ys

/-- The maximal runs of consecutive ids of a sorted list. -/
def runsOf : List Nat → List (Nat × Nat)
  | [] => []
  | x :: xs => runsAux x x xs

/-- The ids a run stands for. -/
def rangeOf (p : Nat × Nat) : List Nat := List.range' p.1 (p.2 + 1 - p.1)

/-- One output token of Topic._make_read_list: str(id) for a singleton run,
lo-hi otherwise. -/
def renderRun (p : Nat × Nat) : List Nat :=
  if p.1 = p.2 then repNat p.1 else repNat p.1 ++ 45 :: repNat p.2

/-- Topic._make_read_list (bulls.py): delete read ids below id_low, sort the
remaining ids, compress them into maximal consecutive runs and join the
tokens with commas; an empty table renders as 0-0. -/
def make_read_list (id_low : Nat) (rcache : List Nat) : List Nat :=
  let ids := sortNat (rcache.filter (fun k => !(k < id_low)))
  let out := (runsOf ids).map renderRun
  joinComma (if out.isEmpty then [[48, 45, 48]] else out)

/-- Python r.split('-', 1): the pieces before and after the first dash. -/
def splitDash : List Nat → List Nat × List Nat
  | [] => ([], [])
  | b :: rest =>
    if b = 45 then ([], rest)
    else
      let r := splitDash rest
      (b :: r.1, r.2)

/-- One token of the read list as the loop in Topic.parseinfo handles it: a
token holding a dash adds the ids lo..hi except 0, a nonempty plain token
adds its value unless it is 0, and an empty token is skipped.  (A token with
several dashes makes the tuple unpacking in the source raise; such tokens do
not occur in compactor output.) -/
def parseReadTok (t : List Nat) : List Nat :=
  if t.contains 45 then
    (List.range' (parseNat (splitDash t).1)
      (parseNat (splitDash t).2 + 1 - parseNat (splitDash t).1)).filter (fun x => x != 0)
  else if t.isEmpty then []
  else if parseNat t = 0 then [] else [parseNat t]

/-- The read-id population loop of Topic.parseinfo (bulls.py): the ids that
the comma-separated read list stands for, in the order they are entered into
the read table. -/
def parse_read_list (s : List Nat) : List Nat :=
  (splitOnByte 44 s).flatMap parseReadTok

/-! ## bmesg.py: BlitzHeader -/

/-- Python ' \t\n\v\f\r' whitespace test on a byte (str.isspace,
regex class s). -/
def isSpaceByte (b : Nat) : Bool := b == 32 || (9 ≤ b && b ≤ 13)

/-- ASCII letter test (regex class a-z under the i flag). -/
def isAlphaByte (b : Nat) : Bool := (65 ≤ b && b ≤ 90) || (97 ≤ b && b ≤ 122)

/-- Bytes allowed after the first letter of a header name
(regex class -a-z0-9 under the i flag). -/
def isNameByte (b : Nat) : Bool := isAlphaByte b || (48 ≤ b && b ≤ 57) || b == 45

/-- The line-unfolding loop of BlitzHeader.parse: an empty line is dropped
and a line starting with whitespace is appended to the previous kept line
with a single space, its leading whitespace stripped.  none models the
IndexError hit when a continuation line precedes every header line. -/
def unfoldAux : List (List Nat) → List (List Nat) → Option (List (List Nat))
  | acc, [] => some acc
  | acc, line :: rest =>
    match line with
    | [] => unfoldAux acc rest
    | b :: _ =>
      if isSpaceByte b then
        match acc.getLast? with
        | none => none
        | some last =>
          unfoldAux (acc.dropLast ++ [last ++ 32 :: line.dropWhile isSpaceByte]) rest
      else unfoldAux (acc ++ [line]) rest

/-- re.match of the anchored header pattern: a name (letter then name bytes,
maximal munch) directly followed by a colon, then the data with its leading
whitespace skipped; when everything after the colon is whitespace the data
is the line's last byte, and a line without data does not match. -/
def matchHeaderLine (line : List Nat) : Option (List Nat × List Nat) :=
  match line with
  | [] => none
  | b :: rest =>
    if isAlphaByte b then
      match rest.dropWhile isNameByte with
      | 58 :: rest2 =>
        let name := b :: rest.takeWhile isNameByte
        let data := rest2.dropWhile isSpaceByte
        if !data.isEmpty then some (name, data)
        else
          match rest2.getLast? with
          | some c => some (name, [c])
          | none => none
      | _ => none
    else none

/-- The unfolded, matched header lines of a message header, in message
order: the unpacked list of BlitzHeader.parse. -/
def headerPairs (text : List Nat) : Option (List (List Nat × List Nat)) :=
  (unfoldAux [] (splitOnByte 10 text)).map (List.filterMap matchHeaderLine)

/-- An entry of the BlitzHeader index: the lower-cased key, the header name
as first seen, and the data of every occurrence in message order. -/
abbrev HdrEntry := List Nat × List Nat × List (List Nat)

/-- index.setdefault(key, (hdr, []))[1].append(data) over an
insertion-ordered dictionary. -/
def addLine : List HdrEntry → List Nat → List Nat → List HdrEntry
  | [], hdr, data => [(lowerStr hdr, hdr, [data])]
  | e :: rest, hdr, data =>
    if e.1 = lowerStr hdr then (e.1, e.2.1, e.2.2 ++ [data]) :: rest
    else e :: addLine rest hdr data

/-- The index-building loop of BlitzHeader.parse, with the dictionary
modelled in insertion order. -/
def buildIndex (lines : List (List Nat × List Nat)) : List HdrEntry :=
  lines.foldl (fun idx p => addLine idx p.1 p.2) []

/-- self.index lookup by an already lower-cased key. -/
def findEntry (k : List Nat) (idx : List HdrEntry) : Option (List Nat × List (List Nat)) :=
  (idx.find? (fun e => e.1 == k)).map (fun e => e.2)

/-- BlitzHeader.get: every occurrence of the named header as a (name, data)
pair, in occurrence order; none models the KeyError on an unknown name. -/
def hdrGet (idx : List HdrEntry) (hdr : List Nat) : Option (List (List Nat × List Nat)) :=
  (findEntry (lowerStr hdr) idx).map (fun e => e.2.map (fun d => (e.1, d)))

/-- BlitzHeader.first: the first element the get iterator yields. -/
def hdrFirst (idx : List HdrEntry) (hdr : List Nat) : Option (List Nat × List Nat) :=
  (hdrGet idx hdr).bind List.head?

/-- BlitzHeader.items, which lists the pairs iteration yields: all
occurrences of each indexed name in turn. -/
def hdrItems (idx : List HdrEntry) : List (List Nat × List Nat) :=
  idx.flatMap (fun e => e.2.2.map (fun d => (e.2.1, d)))

/-! ## Spec-side characterizations -/

/-- Spec-side characterization for the sticky-replay claim: the predicate
selecting the notices the spec says a client with this uid and service list
must receive. -/
def matches_client (uid : Nat) (svcs : List Nat) (n : Notice) : Prop :=
  (n.uid = 0 ∨ n.uid = uid) ∧ n.type ∈ svcs

instance (uid : Nat) (svcs : List Nat) (n : Notice) :
    Decidable (matches_client uid svcs n) := by
  unfold matches_client
  infer_instance

/-- Spec-side characterization: the queue of Notify requests for the given
notices, addressed to addr, with transaction ids advancing mod 2^16. -/
def notify_queue (now : Int) : Nat → Nat × Nat → List Notice → List QElem
  | _, _, [] => []
  | tid, addr, n :: rest =>
    mkNotifyReq now tid n.uid n.type n.msgid n.data addr ::
      notify_queue now ((tid + 1) % 65536) addr rest

/-! ## Theorems -/

/-- C2 counterexample: the inbound datagram 0x00 is not a well-formed ATP
packet, yet the reader does not drop it and continue: the ValueError escapes
the reader loop (only socket.error is caught) and its thread terminates. -/
theorem c2_counterexample :
    receiverStep (fun _ _ _ _ _ _ => some none) (fun _ => true) 0 ⟨[], []⟩ [0] (0, 0) =
      .exc "Invalid packet data:  Truncated header" ∧
    receiverStep (fun _ _ _ _ _ _ => some none) (fun _ => true) 0 ⟨[], []⟩ [0] (0, 0) ≠
      .next ⟨[], []⟩ := by
  constructor
  · rfl
  · decide

/-- C2 amended: for every nonempty inbound datagram that parse_atp_packet
rejects (too short, or its first byte is not the DDP tag 0x03), the reader
of the reliable-datagram transport raises the ValueError rather than
dropping the packet: only socket.error is caught, so the reader thread
terminates and does not process subsequent packets. -/
theorem c2_reader_raises
    (doReq : Nat → Nat → Nat → List Nat → List Nat → Nat × Nat → Option (Option (List Nat)))
    (doRsp : QElem → Bool) (now : Int) (st : AtpState) (pkt : List Nat)
    (sndr : Nat × Nat) (e : String) (hne : pkt ≠ [])
    (h : parse_atp_packet pkt = .error e) :
    receiverStep doReq doRsp now st pkt sndr = .exc e := by
  unfold receiverStep
  rw [if_neg hne, h]

/-- C2 witness: a concrete malformed packet terminates the reader. -/
theorem c2_witness :
    receiverStep (fun _ _ _ _ _ _ => some none) (fun _ => true) 0 ⟨[], []⟩ [5] (0, 0) =
      .exc "Invalid packet data:  Truncated header" :=
  c2_reader_raises _ _ 0 ⟨[], []⟩ [5] (0, 0) _ (by decide) rfl

/-- C3: the CLIENT operation is not gated at all — check_perms allows the
operation tag client for every caller, authenticated or not, although
cmd_CLIENT's own documentation requires a permission; only list and
broadcast are compared against the admin uid. -/
theorem c3_client_not_gated :
    (∀ adm auth : Option Int, check_perms adm auth "client" = true) ∧
    check_perms (some 1) none "client" = true ∧
    check_perms (some 1) none "list" = false ∧
    check_perms (some 1) (some 1) "list" = true ∧
    check_perms none none "broadcast" = false := by
  refine ⟨fun adm auth => ?_, by decide, by decide, by decide, by decide⟩
  unfold check_perms
  rw [if_pos ⟨by decide, by decide⟩]

/-- C6: set_expiration of the string never, case-insensitively, sends the
EXPR command with the numeric argument 2 * INT_MAX + 1, which is 4294967295
in the 32-bit arithmetic the spec states. -/
theorem c6_expire_never (s : List Nat) (h : lowerStr s = neverStr) :
    parse_expire (.str s) = some 4294967295 ∧ (4294967295 : Int) = 2 * INT_MAX + 1 := by
  refine ⟨?_, by decide⟩
  show (if lowerStr s = neverStr then some (2 * INT_MAX + 1) else none) = some 4294967295
  rw [if_pos h]
  decide

/-- C6 witness: the mixed-case spelling NeVeR. -/
theorem c6_witness : parse_expire (.str [78, 101, 86, 101, 82]) = some 4294967295 :=
  (c6_expire_never [78, 101, 86, 101, 82] (by decide)).1

/-- C8: a folder whose message count is 0 yields an empty summary list and
issues no server command; a nonempty folder issues exactly the FSUM range
query. -/
theorem c8_empty_folder {α : Type} (folderId count : Nat) (lo hi : Option Nat)
    (responses : List α) :
    (count = 0 → get_summaries folderId count lo hi responses = ([], [])) ∧
    (count ≠ 0 →
      (get_summaries folderId count lo hi responses).1 = [fsum_cmd folderId lo hi] ∧
      (get_summaries folderId count lo hi responses).2 = responses) := by
  constructor
  · intro h
    simp [get_summaries, h]
  · intro h
    simp [get_summaries, h]

/-- C8 witness: a concrete empty folder and a concrete loaded folder. -/
theorem c8_witness :
    get_summaries 7 0 none none ([] : List Nat) = ([], []) ∧
    (get_summaries 7 3 none (some 2) ([] : List Nat)).1 = [fsum_cmd 7 none (some 2)] :=
  ⟨(c8_empty_folder 7 0 none none []).1 rfl,
   ((c8_empty_folder 7 3 none (some 2) []).2 (by decide)).1⟩

/-- C9: a registration packet that passes the UID-length check, has the six
bytes for port and count, but whose service-code region is not 4 * n_svcs
bytes long, makes parse_register_req raise NameError: the except clause
names struct while the module imports the struct module only as _struct. -/
theorem c9_register_nameError (u : Nat) (body : List Nat)
    (p1 p2 n1 n2 n3 n4 : Nat) (tail : List Nat)
    (hlen : ¬ (u :: body).length < u + 1)
    (hrest : (u :: body).drop (u + 1) = p1 :: p2 :: n1 :: n2 :: n3 :: n4 :: tail)
    (hmis : tail.length ≠ 4 * be32 n1 n2 n3 n4) :
    parse_register_req (u :: body) = .error (.nameError "struct") := by
  show (if (u :: body).length < u + 1 then
      Except.error (PyExc.valueError "Invalid packet data:  Truncated UID")
    else
      let uid := ((u :: body).drop 1).take u
      let rest := (u :: body).drop (u + 1)
      match rest.take 6 with
      | [p1, p2, n1, n2, n3, n4] =>
        if rest.length - 6 = 4 * be32 n1 n2 n3 n4 then
          Except.ok (uid, be16 p1 p2, unpack32s (rest.drop 6))
        else Except.error (PyExc.nameError "struct")
      | _ => Except.error PyExc.structError) = Except.error (PyExc.nameError "struct")
  rw [if_neg hlen]
  simp only [hrest, List.take_succ_cons, List.take_zero, List.length_cons,
    List.drop_succ_cons]
  rw [if_neg (by omega)]

/-- C9 witness: two service codes announced, one present. -/
theorem c9_witness :
    parse_register_req [2, 65, 66, 0, 5, 0, 0, 0, 2, 0, 0, 0, 7] =
      .error (.nameError "struct") :=
  c9_register_nameError 2 [65, 66, 0, 5, 0, 0, 0, 2, 0, 0, 0, 7] 0 5 0 0 0 2 [0, 0, 0, 7]
    (by decide) rfl (by decide)

/-- C10: after a non-COPY move whose reply is not -1, expires holds the
server's raw 1904-epoch value, while parsing a summary line adds the
(negative) 1970-to-1904 offset; the two in-memory values for the same server
value differ by exactly 2082826800 seconds. -/
theorem c10_move_epoch (serverVal old : Int) (h : serverVal ≠ -1) :
    move_message_expires "MOVE" serverVal old = serverVal ∧
    parse_response_expires serverVal = serverVal + time_offset ∧
    move_message_expires "MOVE" serverVal old - parse_response_expires serverVal =
      2082826800 := by
  have hm : move_message_expires "MOVE" serverVal old = serverVal := by
    unfold move_message_expires
    rw [if_pos ⟨h, by decide⟩]
  refine ⟨hm, rfl, ?_⟩
  rw [hm]
  unfold parse_response_expires time_offset
  ring

/-- C10 witness: a concrete server expiration value. -/
theorem c10_witness :
    move_message_expires "MOVE" 100 0 - parse_response_expires 100 = 2082826800 :=
  (c10_move_epoch 100 0 (by decide)).2.2

/-- C4: on a writer wake-up at clock now, the sender pass sends exactly the
queued requests that are at most MAX_AGE = 300 old and whose last
transmission lies more than RETRANS = 20 seconds back (a fresh element's
last-use time is 1, so it is due at once); it keeps exactly the elements at
most 300 old, touching the ones it sent; and no element older than 300
survives the pass, so a pending request disappears either by a matching
response or at the wake-up after its age passes 300. -/
theorem c4_retransmit (now : Int) (rq : List QElem) :
    (senderPass 300 now rq).2 =
      rq.filter (fun e => decide (now - e.orig ≤ 300) && e.is_due now 20) ∧
    (senderPass 300 now rq).1 =
      (rq.filter (fun e => decide (now - e.orig ≤ 300))).map
        (fun e => if e.is_due now 20 then e.touch now else e) ∧
    ∀ e ∈ (senderPass 300 now rq).1, now - e.orig ≤ 300 := by
  induction rq with
  | nil =>
    refine ⟨rfl, rfl, ?_⟩
    intro e h
    exact absurd h (List.not_mem_nil e)
  | cons e rest ih =>
    obtain ⟨ih1, ih2, ih3⟩ := ih
    by_cases hold : e.age now > 300
    · have h1 : ¬ now - e.orig ≤ 300 := by
        simp only [QElem.age] at hold
        omega
      have hb : decide (now - e.orig ≤ 300) = false := by
        simp only [decide_eq_false_iff_not]
        exact h1
      have hpair : senderPass 300 now (e :: rest) = senderPass 300 now rest := by
        simp only [senderPass, if_pos hold]
      refine ⟨?_, ?_, ?_⟩
      · rw [hpair, ih1, List.filter_cons, hb]
        simp
      · rw [hpair, ih2, List.filter_cons, hb]
        simp
      · intro x hx
        rw [hpair] at hx
        exact ih3 x hx
    · have h1 : now - e.orig ≤ 300 := by
        simp only [QElem.age] at hold
        omega
      have hb : decide (now - e.orig ≤ 300) = true := by
        simp only [decide_eq_true_eq]
        exact h1
      by_cases hdue : e.is_due now 20
      · have hpair : senderPass 300 now (e :: rest) =
            (e.touch now :: (senderPass 300 now rest).1,
              e :: (senderPass 300 now rest).2) := by
          simp only [senderPass, if_neg hold, if_pos hdue]
        refine ⟨?_, ?_, ?_⟩
        · rw [hpair, List.filter_cons, hb]
          simp [hdue, ih1]
        · rw [hpair, List.filter_cons, hb]
          simp [hdue, ih2]
        · intro x hx
          rw [hpair] at hx
          simp only [List.mem_cons] at hx
          rcases hx with hx | hx
          · subst hx
            simpa [QElem.touch] using h1
          · exact ih3 x hx
      · have hpair : senderPass 300 now (e :: rest) =
            (e :: (senderPass 300 now rest).1, (senderPass 300 now rest).2) := by
          simp only [senderPass, if_neg hold, if_neg hdue]
        refine ⟨?_, ?_, ?_⟩
        · rw [hpair, List.filter_cons, hb]
          simp [hdue, ih1]
        · rw [hpair, List.filter_cons, hb]
          simp [hdue, ih2]
        · intro x hx
          rw [hpair] at hx
          simp only [List.mem_cons] at hx
          rcases hx with hx | hx
          · subst hx
            exact h1
          · exact ih3 x hx

/-- C4 witness: at clock 1000, a request created at 900 and last used at 1
(never transmitted) survives the pass, so the age bound holds for it. -/
theorem c4_witness :
    (1000 : Int) - (900 : Int) ≤ 300 :=
  (c4_retransmit 1000 [⟨900, 1, 2, ⟨.req, 0x20, 1, 2, [], none⟩, (0, 0)⟩]).2.2
    ⟨900, 1000, 2, ⟨.req, 0x20, 1, 2, [], none⟩, (0, 0)⟩ (by decide)

/-- Sticky replay never changes a client whose sendmark is already now. -/
theorem send_sticky_fix (now : Int) :
    ∀ (db : List Notice) (tid : Nat) (c : Client), c.smark = now →
      (send_sticky now tid c db).1 = c := by
  intro db
  induction db with
  | nil => intro tid c _; rfl
  | cons n rest ih =>
    intro tid c hc
    by_cases h : (n.uid = 0 ∨ n.uid = c.uid) ∧ n.type ∈ c.svcs
    · have hcc : ({ c with smark := now } : Client) = c := by
        rw [← hc]
      simp only [send_sticky, if_pos h, hcc]
      exact ih _ c hc
    · simp only [send_sticky, if_neg h]
      exact ih _ c hc

/-- The requests sticky replay enqueues are exactly those of the matching
notices, in store order, addressed to the client. -/
theorem send_sticky_reqs (now : Int) :
    ∀ (db : List Notice) (tid : Nat) (c : Client),
      (send_sticky now tid c db).2.2 =
        notify_queue now tid c.addr
          (db.filter (fun n => decide (matches_client c.uid c.svcs n))) := by
  intro db
  induction db with
  | nil => intro tid c; rfl
  | cons n rest ih =>
    intro tid c
    by_cases h : (n.uid = 0 ∨ n.uid = c.uid) ∧ n.type ∈ c.svcs
    · have hm : decide (matches_client c.uid c.svcs n) = true := by
        simp only [decide_eq_true_eq]
        exact h
      simp only [send_sticky, if_pos h, List.filter_cons, hm, if_pos rfl]
      show _ =
        mkNotifyReq now tid n.uid n.type n.msgid n.data c.addr ::
          notify_queue now ((tid + 1) % 65536) c.addr
            (rest.filter (fun n => decide (matches_client c.uid c.svcs n)))
      refine congrArg (mkNotifyReq now tid n.uid n.type n.msgid n.data c.addr :: ·) ?_
      have := ih ((tid + 1) % 65536) { c with smark := now }
      simpa [Client.addr] using this
    · have hm : decide (matches_client c.uid c.svcs n) = false := by
        simp only [decide_eq_false_iff_not]
        exact h
      simp only [send_sticky, if_neg h, List.filter_cons, hm]
      simpa using ih tid c

/-- C1: registering a fresh client C = (uid, ip, port, svcs) appends its
record (both marks set to now, hence the last-sent mark set) and enqueues a
Notify request for exactly the sticky notices whose uid is 0 or C's and
whose type is among C's services, in store order, addressed to C, and for
no other notice. -/
theorem c1_sticky_replay (now : Int) (tid : Nat) (uid ip port : Nat)
    (svcs : List Nat) (clients : List Client) (db : List Notice)
    (hfresh :
      clients.findIdx? (fun c => clientEq c ⟨uid, ip, port, svcs, now, now⟩) = none) :
    (add_client now tid uid ip port svcs clients db).2.2.2 =
      notify_queue now tid (ip, port)
        (db.filter (fun n => decide (matches_client uid svcs n))) ∧
    (add_client now tid uid ip port svcs clients db).2.1 =
      ⟨uid, ip, port, svcs, now, now⟩ ∧
    (add_client now tid uid ip port svcs clients db).1 =
      clients ++ [⟨uid, ip, port, svcs, now, now⟩] := by
  have hout :
      (send_sticky now tid (⟨uid, ip, port, svcs, now, now⟩ : Client) db).1 =
        ⟨uid, ip, port, svcs, now, now⟩ :=
    send_sticky_fix now db tid _ rfl
  refine ⟨?_, ?_, ?_⟩
  · simp only [add_client, hfresh]
    exact send_sticky_reqs now db tid ⟨uid, ip, port, svcs, now, now⟩
  · simp only [add_client, hfresh]
    exact hout
  · simp only [add_client, hfresh, hout]

/-- C1 witness: a fresh client for uid 9, services 1 and 3, replaying a
store of four sticky notices: the broadcast notice of type 1 and the uid-9
notice of type 3 are enqueued, the uid-8 notice and the type-2 notice are
not. -/
theorem c1_witness :
    (add_client 50 7 9 1 2 [1, 3] []
        [⟨0, 1, 100, true, none⟩, ⟨9, 2, 101, true, none⟩, ⟨8, 1, 102, true, none⟩,
         ⟨9, 3, 103, true, none⟩]).2.2.2 =
      [mkNotifyReq 50 7 0 1 100 none (1, 2), mkNotifyReq 50 8 9 3 103 none (1, 2)] :=
  ((c1_sticky_replay 50 7 9 1 2 [1, 3] []
      [⟨0, 1, 100, true, none⟩, ⟨9, 2, 101, true, none⟩, ⟨8, 1, 102, true, none⟩,
       ⟨9, 3, 103, true, none⟩] rfl).1).trans (by decide)

/-- Iteration over a cons-shaped header index. -/
theorem hdrItems_cons (e : HdrEntry) (idx : List HdrEntry) :
    hdrItems (e :: idx) = e.2.2.map (fun d => (e.2.1, d)) ++ hdrItems idx := by
  simp [hdrItems]

/-- Projecting the data out of the pairs an index entry yields. -/
theorem map_snd_pair_map (n : List Nat) (l : List (List Nat)) :
    (l.map (fun d => (n, d))).map Prod.snd = l := by
  simp

/-- Updating the header index for one line changes exactly the entry of the
line's lower-cased name: its data grows by the line, its stored name stays;
a new name gets a fresh entry holding the line. -/
theorem findEntry_addLine (hdr data k : List Nat) :
    ∀ idx : List HdrEntry,
      findEntry k (addLine idx hdr data) =
        if lowerStr hdr = k then
          match findEntry k idx with
          | some (n, ds) => some (n, ds ++ [data])
          | none => some (hdr, [data])
        else findEntry k idx := by
  intro idx
  induction idx with
  | nil =>
    by_cases hk : lowerStr hdr = k
    · simp [addLine, findEntry, hk]
    · simp [addLine, findEntry, hk]
  | cons e rest ih =>
    by_cases he : e.1 = lowerStr hdr
    · by_cases hk : e.1 = k
      · simp [addLine, findEntry, he, hk, he ▸ hk]
      · have hk2 : ¬ lowerStr hdr = k := fun h => hk (he.trans h)
        simp [addLine, findEntry, he, hk, hk2]
    · by_cases hk : e.1 = k
      · have hk2 : ¬ lowerStr hdr = k := fun h => he (hk.trans h.symm)
        have hk3 : ¬ k = lowerStr hdr := fun h => hk2 h.symm
        simp [addLine, findEntry, he, hk, hk2, hk3]
      · simp only [addLine, if_neg he]
        by_cases hk2 : lowerStr hdr = k
        · simp only [findEntry, List.find?_cons, beq_eq_false_iff_ne.mpr hk,
            cond_false] at ih ⊢
          simpa [hk2] using ih
        · simp only [findEntry, List.find?_cons, beq_eq_false_iff_ne.mpr hk,
            cond_false] at ih ⊢
          simpa [hk2] using ih

/-- The header index an unpacked line list builds, entry by entry: the entry
of a key is the name of its first occurrence together with the data of all
its occurrences in message order. -/
theorem findEntry_buildIndex_aux (k : List Nat) :
    ∀ (lines : List (List Nat × List Nat)) (acc : List HdrEntry),
      findEntry k (lines.foldl (fun idx p => addLine idx p.1 p.2) acc) =
        match findEntry k acc with
        | some (n, ds) =>
          some (n, ds ++ (lines.filter (fun p => lowerStr p.1 == k)).map Prod.snd)
        | none =>
          (lines.find? (fun p => lowerStr p.1 == k)).map
            (fun p => (p.1, (lines.filter (fun q => lowerStr q.1 == k)).map Prod.snd)) := by
  intro lines
  induction lines with
  | nil =>
    intro acc
    simp only [List.foldl_nil, List.filter_nil, List.map_nil, List.find?_nil]
    cases hfe : findEntry k acc with
    | none => simp
    | some v =>
      cases v with
      | mk n ds => simp
  | cons p rest ih =>
    intro acc
    simp only [List.foldl_cons]
    rw [ih (addLine acc p.1 p.2), findEntry_addLine]
    by_cases hk : lowerStr p.1 = k
    · have hb : (lowerStr p.1 == k) = true := beq_iff_eq.mpr hk
      rw [if_pos hk]
      cases hfe : findEntry k acc with
      | none => simp [List.filter_cons, List.find?_cons, hb]
      | some v =>
        cases v with
        | mk n ds => simp [List.filter_cons, List.find?_cons, hb]
    · have hb : (lowerStr p.1 == k) = false := beq_eq_false_iff_ne.mpr hk
      rw [if_neg hk]
      simp [List.filter_cons, List.find?_cons, hb]

/-- The head of a filtered list is the first match. -/
theorem filter_head?_eq_find? {α : Type} (p : α → Bool) :
    ∀ l : List α, (l.filter p).head? = l.find? p := by
  intro l
  induction l with
  | nil => rfl
  | cons x xs ih =>
    cases hx : p x with
    | true =>
      rw [List.filter_cons_of_pos hx, List.find?_cons_of_pos xs hx, List.head?_cons]
    | false =>
      rw [List.filter_cons_of_neg (by simp [hx]), List.find?_cons_of_neg xs (by simp [hx])]
      exact ih

/-- The keys of the header index after one line: unchanged for a known name,
extended at the end for a new one. -/
theorem hdrKeys_addLine (hdr data : List Nat) :
    ∀ idx : List HdrEntry,
      (addLine idx hdr data).map (fun e => e.1) =
        if lowerStr hdr ∈ idx.map (fun e => e.1) then idx.map (fun e => e.1)
        else idx.map (fun e => e.1) ++ [lowerStr hdr] := by
  intro idx
  induction idx with
  | nil => simp [addLine]
  | cons e rest ih =>
    by_cases he : e.1 = lowerStr hdr
    · simp [addLine, he]
    · simp only [addLine, if_neg he, List.map_cons, ih, List.mem_cons]
      by_cases hm : lowerStr hdr ∈ rest.map (fun e => e.1)
      · simp [hm]
      · rw [if_neg hm, if_neg ?_]
        · simp
        · rintro (h | h)
          · exact he h.symm
          · exact hm h

/-- The header index keeps one entry per lower-cased name. -/
theorem buildIndex_keys_nodup :
    ∀ (lines : List (List Nat × List Nat)) (acc : List HdrEntry),
      ((acc.map (fun e => e.1)).Nodup) →
      (((lines.foldl (fun idx p => addLine idx p.1 p.2) acc).map (fun e => e.1)).Nodup) := by
  intro lines
  induction lines with
  | nil => intro acc h; exact h
  | cons p rest ih =>
    intro acc h
    simp only [List.foldl_cons]
    refine ih (addLine acc p.1 p.2) ?_
    rw [hdrKeys_addLine]
    by_cases hm : lowerStr p.1 ∈ acc.map (fun e => e.1)
    · simpa [hm] using h
    · rw [if_neg hm]
      simp only [List.nodup_append, List.nodup_cons, List.not_mem_nil,
        not_false_iff, List.nodup_nil, and_true, true_and]
      constructor
      · exact h
      · intro a ha hb
        simp only [List.mem_singleton] at hb
        exact hm (hb ▸ ha)

/-- Indexing one more line adds exactly its data to the iteration, as
multisets. -/
theorem hdrItems_snd_addLine (hdr data : List Nat) :
    ∀ idx : List HdrEntry,
      ((hdrItems (addLine idx hdr data)).map Prod.snd).Perm
        (data :: (hdrItems idx).map Prod.snd) := by
  intro idx
  induction idx with
  | nil => simp [addLine, hdrItems]
  | cons e rest ih =>
    by_cases he : e.1 = lowerStr hdr
    · simp only [addLine, if_pos he, hdrItems_cons, List.map_append, map_snd_pair_map]
      rw [List.append_assoc, List.singleton_append]
      exact List.perm_middle
    · simp only [addLine, if_neg he, hdrItems_cons, List.map_append, map_snd_pair_map]
      exact (List.Perm.append_left e.2.2 ih).trans List.perm_middle

/-- Iterating the built header index yields the data of every unpacked line
exactly once, as multisets. -/
theorem hdrItems_snd_buildIndex :
    ∀ (lines : List (List Nat × List Nat)) (acc : List HdrEntry),
      ((hdrItems (lines.foldl (fun idx p => addLine idx p.1 p.2) acc)).map Prod.snd).Perm
        ((hdrItems acc).map Prod.snd ++ lines.map Prod.snd) := by
  intro lines
  induction lines with
  | nil => intro acc; simp
  | cons p rest ih =>
    intro acc
    simp only [List.foldl_cons, List.map_cons]
    refine (ih (addLine acc p.1 p.2)).trans ?_
    refine (List.Perm.append_right _ (hdrItems_snd_addLine p.1 p.2 acc)).trans ?_
    rw [List.cons_append]
    exact (List.perm_middle).symm

/-- C7 counterexample: the header A: 1, B: 2, A: 3 parses to three lines in
message order, but iterating the header map yields (A,1), (A,3), (B,2) —
the two A lines grouped together — not the message order
(A,1), (B,2), (A,3). -/
theorem c7_counterexample :
    headerPairs [65, 58, 32, 49, 10, 66, 58, 32, 50, 10, 65, 58, 32, 51] =
      some [([65], [49]), ([66], [50]), ([65], [51])] ∧
    hdrItems (buildIndex [([65], [49]), ([66], [50]), ([65], [51])]) =
      [([65], [49]), ([65], [51]), ([66], [50])] ∧
    hdrItems (buildIndex [([65], [49]), ([66], [50]), ([65], [51])]) ≠
      [([65], [49]), ([66], [50]), ([65], [51])] :=
  ⟨by decide, by decide, by decide⟩

/-- C7 amended: for a parsed header map, iterating yields every occurrence
of every header line exactly once, but grouped by header name (one index
entry per lower-cased name), with the occurrences of each name in message
order inside their group — not globally in message order; first(h) returns
the first occurrence of h in the message; and lookup is case-insensitive in
the name, with every returned pair carrying the name's spelling at its first
occurrence. -/
theorem c7_header_map (text : List Nat) (lines : List (List Nat × List Nat))
    (hp : headerPairs text = some lines) :
    (∀ h, hdrFirst (buildIndex lines) h =
        lines.find? (fun p => lowerStr p.1 == lowerStr h)) ∧
    (∀ h, hdrGet (buildIndex lines) h =
        (lines.find? (fun p => lowerStr p.1 == lowerStr h)).map
          (fun p => (lines.filter (fun q => lowerStr q.1 == lowerStr h)).map
            (fun q => (p.1, q.2)))) ∧
    ((buildIndex lines).map (fun e => e.1)).Nodup ∧
    ((hdrItems (buildIndex lines)).map Prod.snd).Perm (lines.map Prod.snd) := by
  have hfe : ∀ k, findEntry k (buildIndex lines) =
      (lines.find? (fun p => lowerStr p.1 == k)).map
        (fun p => (p.1, (lines.filter (fun q => lowerStr q.1 == k)).map Prod.snd)) := by
    intro k
    have := findEntry_buildIndex_aux k lines []
    simpa [buildIndex, findEntry] using this
  have hget : ∀ h, hdrGet (buildIndex lines) h =
      (lines.find? (fun p => lowerStr p.1 == lowerStr h)).map
        (fun p => (lines.filter (fun q => lowerStr q.1 == lowerStr h)).map
          (fun q => (p.1, q.2))) := by
    intro h
    rw [hdrGet, hfe (lowerStr h)]
    cases hf : lines.find? (fun p => lowerStr p.1 == lowerStr h) with
    | none => rfl
    | some p => simp [List.map_map]
  refine ⟨?_, hget, ?_, ?_⟩
  · intro h
    rw [hdrFirst, hget h]
    cases hf : lines.find? (fun p => lowerStr p.1 == lowerStr h) with
    | none => rfl
    | some p =>
      show ((lines.filter (fun q => lowerStr q.1 == lowerStr h)).map
          (fun q => (p.1, q.2))).head? = some p
      rw [List.head?_map, filter_head?_eq_find?, hf]
      rfl
  · have := buildIndex_keys_nodup lines []
    simpa [buildIndex] using this
  · have := hdrItems_snd_buildIndex lines []
    simpa [buildIndex, hdrItems] using this

/-- C7 witness: on the parsed header A: 1, B: 2, A: 3, first of the
lower-case name a is the first A line. -/
theorem c7_witness :
    hdrFirst (buildIndex [([65], [49]), ([66], [50]), ([65], [51])]) [97] =
      some ([65], [49]) :=
  ((c7_header_map [65, 58, 32, 49, 10, 66, 58, 32, 50, 10, 65, 58, 32, 51]
      [([65], [49]), ([66], [50]), ([65], [51])] (by decide)).1 [97]).trans (by decide)

/-- Every byte of a rendered number is a decimal digit. -/
theorem repNatAux_mem : ∀ (fuel n b : Nat), b ∈ repNatAux fuel n → 48 ≤ b ∧ b ≤ 57 := by
  intro fuel
  induction fuel with
  | zero => intro n b h; simp [repNatAux] at h
  | succ fuel ih =>
    intro n b h
    by_cases h10 : n < 10
    · simp only [repNatAux, if_pos h10, List.mem_singleton] at h
      omega
    · simp only [repNatAux, if_neg h10, List.mem_append, List.mem_singleton] at h
      rcases h with h | h
      · exact ih _ _ h
      · have : n % 10 < 10 := Nat.mod_lt _ (by omega)
        omega

/-- Every byte of str(n) is a decimal digit. -/
theorem repNat_mem (n b : Nat) (h : b ∈ repNat n) : 48 ≤ b ∧ b ≤ 57 :=
  repNatAux_mem (n + 1) n b h

/-- str(n) is never empty. -/
theorem repNat_ne_nil (n : Nat) : repNat n ≠ [] := by
  unfold repNat
  by_cases h10 : n < 10
  · simp [repNatAux, h10]
  · simp [repNatAux, h10]

/-- str(n) holds no dash. -/
theorem repNat_no_dash (n : Nat) : 45 ∉ repNat n := by
  intro h
  have := repNat_mem n 45 h
  omega

/-- str(n) holds no comma. -/
theorem repNat_no_comma (n : Nat) : 44 ∉ repNat n := by
  intro h
  have := repNat_mem n 44 h
  omega

/-- The decimal parse folded over a rendered number: the rendered digits
contribute the number itself. -/
theorem parseNat_repNatAux : ∀ (fuel n a : Nat), n < fuel →
    List.foldl (fun x b => 10 * x + (b - 48)) a (repNatAux fuel n) =
      a * 10 ^ (repNatAux fuel n).length + n := by
  intro fuel
  induction fuel with
  | zero => intro n a h; exact absurd h (Nat.not_lt_zero n)
  | succ fuel ih =>
    intro n a h
    by_cases h10 : n < 10
    · simp only [repNatAux, if_pos h10, List.foldl_cons, List.foldl_nil,
        List.length_singleton, pow_one]
      omega
    · have hdiv : n / 10 < fuel := by omega
      simp only [repNatAux, if_neg h10, List.foldl_append, List.foldl_cons,
        List.foldl_nil, List.length_append, List.length_singleton]
      rw [ih (n / 10) a hdiv]
      have hm : 48 + n % 10 - 48 = n % 10 := by omega
      have hdm : 10 * (n / 10) + n % 10 = n := Nat.div_add_mod n 10
      set P := 10 ^ (repNatAux fuel (n / 10)).length with hP
      have hps : 10 ^ ((repNatAux fuel (n / 10)).length + 1) = P * 10 := pow_succ 10 _
      rw [hps]
      calc 10 * (a * P + n / 10) + (48 + n % 10 - 48)
          = 10 * (a * P) + (10 * (n / 10) + (48 + n % 10 - 48)) := by ring
        _ = 10 * (a * P) + n := by omega
        _ = a * (P * 10) + n := by ring

/-- int(str(n)) round-trips (Python int of the rendered decimal form). -/
theorem parseNat_repNat (n : Nat) : parseNat (repNat n) = n := by
  have := parseNat_repNatAux (n + 1) n 0 (Nat.lt_succ_self n)
  simpa [parseNat, repNat] using this

/-- Splitting never yields the empty token list. -/
theorem splitOnByte_ne_nil (sep : Nat) : ∀ bs, splitOnByte sep bs ≠ [] := by
  intro bs
  induction bs with
  | nil => simp [splitOnByte]
  | cons b rest ih =>
    simp only [splitOnByte]
    cases hr : splitOnByte sep rest with
    | nil => simp
    | cons cur done =>
      by_cases hb : b = sep <;> simp [hb]

/-- Splitting a separator-free string yields that string alone. -/
theorem splitOnByte_no_sep (sep : Nat) : ∀ t, sep ∉ t → splitOnByte sep t = [t] := by
  intro t
  induction t with
  | nil => intro _; rfl
  | cons b rest ih =>
    intro h
    have hb : ¬ b = sep := fun e => h (e ▸ List.mem_cons_self b rest)
    have hr : sep ∉ rest := fun e => h (List.mem_cons_of_mem b e)
    simp only [splitOnByte, ih hr]
    rw [if_neg hb]

/-- Splitting distributes over a leading separator-free chunk. -/
theorem splitOnByte_append (sep : Nat) : ∀ (t u : List Nat), sep ∉ t →
    splitOnByte sep (t ++ sep :: u) = t :: splitOnByte sep u := by
  intro t
  induction t with
  | nil =>
    intro u _
    simp only [List.nil_append, splitOnByte]
    cases hr : splitOnByte sep u with
    | nil => exact absurd hr (splitOnByte_ne_nil sep u)
    | cons cur done => simp
  | cons b rest ih =>
    intro u h
    have hb : ¬ b = sep := fun e => h (e ▸ List.mem_cons_self b rest)
    have hr : sep ∉ rest := fun e => h (List.mem_cons_of_mem b e)
    simp only [List.cons_append, splitOnByte, List.append_eq, ih u hr]
    rw [if_neg hb]

/-- Splitting on commas undoes the comma join when no token holds a comma. -/
theorem splitOnByte_joinComma : ∀ ts : List (List Nat), ts ≠ [] →
    (∀ t ∈ ts, 44 ∉ t) → splitOnByte 44 (joinComma ts) = ts := by
  intro ts
  induction ts with
  | nil => intro h _; exact absurd rfl h
  | cons t ts2 ih =>
    intro _ hmem
    cases ts2 with
    | nil =>
      show splitOnByte 44 t = [t]
      exact splitOnByte_no_sep 44 t (hmem t (by simp))
    | cons t2 ts3 =>
      have hj : joinComma (t :: t2 :: ts3) = t ++ 44 :: joinComma (t2 :: ts3) := rfl
      rw [hj, splitOnByte_append 44 t _ (hmem t (by simp))]
      rw [ih (by simp) (fun x hx => hmem x (List.mem_cons_of_mem t hx))]

/-- Splitting at the first dash of a dash-free chunk followed by a dash. -/
theorem splitDash_append : ∀ (t u : List Nat), 45 ∉ t →
    splitDash (t ++ 45 :: u) = (t, u) := by
  intro t
  induction t with
  | nil => intro u _; simp [splitDash]
  | cons b rest ih =>
    intro u h
    have hb : ¬ b = 45 := fun e => h (e ▸ List.mem_cons_self b rest)
    have hr : 45 ∉ rest := fun e => h (List.mem_cons_of_mem b e)
    simp only [List.cons_append, splitDash, List.append_eq, if_neg hb, ih u hr]

/-- Every byte of a rendered run is a digit or the dash. -/
theorem renderRun_mem (p : Nat × Nat) (b : Nat) (h : b ∈ renderRun p) :
    (48 ≤ b ∧ b ≤ 57) ∨ b = 45 := by
  unfold renderRun at h
  by_cases hpe : p.1 = p.2
  · rw [if_pos hpe] at h
    exact Or.inl (repNat_mem _ _ h)
  · rw [if_neg hpe] at h
    rcases List.mem_append.mp h with h | h
    · exact Or.inl (repNat_mem _ _ h)
    · rcases List.mem_cons.mp h with h | h
      · exact Or.inr h
      · exact Or.inl (repNat_mem _ _ h)

/-- Rendered runs hold no comma. -/
theorem renderRun_no_comma (p : Nat × Nat) : 44 ∉ renderRun p := by
  intro h
  rcases renderRun_mem p 44 h with h | h <;> omega

/-- Parsing a rendered run yields exactly the run's ids, except 0. -/
theorem parseReadTok_renderRun (p : Nat × Nat) :
    parseReadTok (renderRun p) = (rangeOf p).filter (fun x => x != 0) := by
  by_cases hpe : p.1 = p.2
  · have hnd : 45 ∉ repNat p.1 := repNat_no_dash p.1
    have hc : (repNat p.1).contains 45 = false := by simpa using hnd
    have hne : (repNat p.1).isEmpty = false := by
      cases hrn : repNat p.1 with
      | nil => exact absurd hrn (repNat_ne_nil p.1)
      | cons a b => simp
    unfold renderRun parseReadTok
    rw [if_pos hpe]
    simp only [hc, Bool.false_eq_true, if_false, hne, parseNat_repNat]
    have hr : rangeOf p = [p.1] := by
      unfold rangeOf
      rw [← hpe]
      have : p.1 + 1 - p.1 = 1 := by omega
      rw [this, List.range'_one]
    rw [hr]
    by_cases hz : p.1 = 0
    · simp [hz]
    · simp [hz]
  · have hnd : 45 ∉ repNat p.1 := repNat_no_dash p.1
    have hmem : 45 ∈ repNat p.1 ++ 45 :: repNat p.2 := by simp
    have hc : (repNat p.1 ++ 45 :: repNat p.2).contains 45 = true := by
      simp
    unfold renderRun parseReadTok
    rw [if_neg hpe]
    simp only [hc, if_true, splitDash_append _ _ hnd, parseNat_repNat]
    rfl

/-- The run builder always emits at least one run. -/
theorem runsAux_ne_nil : ∀ (l : List Nat) (start cur : Nat), runsAux start cur l ≠ [] := by
  intro l
  induction l with
  | nil => intro start cur; simp [runsAux]
  | cons y ys ih =>
    intro start cur
    by_cases hy : y = cur + 1
    · simp only [runsAux, if_pos hy]
      exact ih start y
    · simp [runsAux, hy]

/-- Flattening the runs emitted from a strictly ascending tail recovers the
pending run followed by the tail. -/
theorem runsAux_flatMap : ∀ (l : List Nat) (start cur : Nat),
    List.Chain' (· < ·) (cur :: l) → start ≤ cur →
    (runsAux start cur l).flatMap rangeOf = List.range' start (cur + 1 - start) ++ l := by
  intro l
  induction l with
  | nil =>
    intro start cur _ _
    simp [runsAux, rangeOf]
  | cons y ys ih =>
    intro start cur hch hle
    rw [List.chain'_cons] at hch
    obtain ⟨hcy, hch2⟩ := hch
    by_cases hy : y = cur + 1
    · simp only [runsAux, if_pos hy]
      rw [ih start y (hy ▸ hch2) (by omega)]
      have hlen : y + 1 - start = (cur + 1 - start) + 1 := by omega
      rw [hlen]
      have hcat := @List.range'_concat 1 start (cur + 1 - start)
      simp only [one_mul] at hcat
      rw [hcat]
      have hsn : start + (cur + 1 - start) = cur + 1 := by omega
      rw [hsn, List.append_assoc, List.singleton_append, hy]
    · simp only [runsAux, if_neg hy, List.flatMap_cons]
      rw [ih y y hch2 (le_refl y)]
      have h1 : y + 1 - y = 1 := by omega
      rw [h1, List.range'_one]
      simp [rangeOf]

/-- Flattening the runs of a strictly ascending list recovers the list. -/
theorem runsOf_flatMap (l : List Nat) (hch : List.Chain' (· < ·) l) :
    (runsOf l).flatMap rangeOf = l := by
  cases l with
  | nil => rfl
  | cons x xs =>
    rw [runsOf, runsAux_flatMap xs x x hch (le_refl x)]
    have h1 : x + 1 - x = 1 := by omega
    rw [h1, List.range'_one, List.singleton_append]

/-- Filtering commutes with flattening. -/
theorem flatMap_filter {α β : Type} (f : α → List β) (q : β → Bool) :
    ∀ l : List α, (l.flatMap fun a => (f a).filter q) = (l.flatMap f).filter q := by
  intro l
  induction l with
  | nil => rfl
  | cons a as ih => simp [List.flatMap_cons, List.filter_append, ih]

/-- Inserting into a list is a permutation of consing. -/
theorem insertSorted_perm (x : Nat) : ∀ l, (insertSorted x l).Perm (x :: l) := by
  intro l
  induction l with
  | nil => exact List.Perm.refl _
  | cons y ys ih =>
    by_cases h : x ≤ y
    · simp only [insertSorted, if_pos h]
      exact List.Perm.refl _
    · simp only [insertSorted, if_neg h]
      exact (ih.cons y).trans (List.Perm.swap x y ys)

/-- The sort is a permutation of its input. -/
theorem sortNat_perm : ∀ l, (sortNat l).Perm l := by
  intro l
  induction l with
  | nil => exact List.Perm.refl _
  | cons x xs ih =>
    have h1 : sortNat (x :: xs) = insertSorted x (sortNat xs) := rfl
    rw [h1]
    exact (insertSorted_perm x (sortNat xs)).trans (ih.cons x)

/-- Insertion keeps a list sorted. -/
theorem insertSorted_sorted (x : Nat) :
    ∀ l, l.Pairwise (· ≤ ·) → (insertSorted x l).Pairwise (· ≤ ·) := by
  intro l
  induction l with
  | nil => intro _; simp [insertSorted]
  | cons y ys ih =>
    intro hp
    rw [List.pairwise_cons] at hp
    obtain ⟨hy, hys⟩ := hp
    by_cases h : x ≤ y
    · simp only [insertSorted, if_pos h]
      rw [List.pairwise_cons]
      refine ⟨?_, List.pairwise_cons.mpr ⟨hy, hys⟩⟩
      intro z hz
      rcases List.mem_cons.mp hz with hz | hz
      · exact hz ▸ h
      · exact le_trans h (hy z hz)
    · simp only [insertSorted, if_neg h]
      rw [List.pairwise_cons]
      refine ⟨?_, ih hys⟩
      intro z hz
      rcases List.mem_cons.mp ((insertSorted_perm x ys).mem_iff.mp hz) with hz | hz
      · subst hz
        omega
      · exact hy z hz

/-- The sort is sorted. -/
theorem sortNat_sorted : ∀ l, (sortNat l).Pairwise (· ≤ ·) := by
  intro l
  induction l with
  | nil => simp [sortNat]
  | cons x xs ih => exact insertSorted_sorted x (sortNat xs) ih

/-- Sorting a sorted list changes nothing. -/
theorem sortNat_of_sorted : ∀ l, l.Pairwise (· ≤ ·) → sortNat l = l := by
  intro l
  induction l with
  | nil => intro _; rfl
  | cons x xs ih =>
    intro hp
    rw [List.pairwise_cons] at hp
    have h1 : sortNat (x :: xs) = insertSorted x (sortNat xs) := rfl
    rw [h1, ih hp.2]
    cases xs with
    | nil => rfl
    | cons y ys => simp only [insertSorted, if_pos (hp.1 y (by simp))]

/-- Unfolding of the compactor through its let bindings. -/
theorem make_read_list_eq (id_low : Nat) (rcache : List Nat) :
    make_read_list id_low rcache =
      joinComma
        (if ((runsOf (sortNat (rcache.filter (fun k => !(k < id_low))))).map
            renderRun).isEmpty then [[48, 45, 48]]
         else (runsOf (sortNat (rcache.filter (fun k => !(k < id_low))))).map renderRun) :=
  rfl

/-- Parsing the rendered, comma-joined runs of a strictly ascending list of
nonzero ids recovers the list. -/
theorem parse_render_sorted (s : List Nat) (hch : List.Chain' (· < ·) s)
    (hnz : ∀ x ∈ s, x ≠ 0) :
    parse_read_list
      (joinComma (if ((runsOf s).map renderRun).isEmpty then [[48, 45, 48]]
        else (runsOf s).map renderRun)) = s := by
  cases s with
  | nil => decide
  | cons x xs =>
    have hrne : runsOf (x :: xs) ≠ [] := by
      rw [runsOf]
      exact runsAux_ne_nil xs x x
    have hout : ((runsOf (x :: xs)).map renderRun).isEmpty = false := by
      cases hr : runsOf (x :: xs) with
      | nil => exact absurd hr hrne
      | cons a b => simp [hr]
    rw [hout]
    simp only [Bool.false_eq_true, if_false]
    unfold parse_read_list
    rw [splitOnByte_joinComma _ (by simpa using hrne)
      (fun t ht => by
        rcases List.mem_map.mp ht with ⟨p, _, hp⟩
        exact hp ▸ renderRun_no_comma p)]
    rw [List.flatMap_map]
    simp only [parseReadTok_renderRun]
    rw [flatMap_filter rangeOf _ (runsOf (x :: xs)), runsOf_flatMap _ hch]
    exact List.filter_eq_self.mpr (fun a ha => by simpa using hnz a ha)

/-- Parsing back a compacted read list yields the sorted ids at or above
id_low. -/
theorem parse_make_read_list (rcache : List Nat) (id_low : Nat)
    (hnd : rcache.Nodup) (hlow : 1 ≤ id_low) :
    parse_read_list (make_read_list id_low rcache) =
      sortNat (rcache.filter (fun k => !(k < id_low))) := by
  have hmem : ∀ x ∈ sortNat (rcache.filter (fun k => !(k < id_low))), id_low ≤ x := by
    intro x hx
    have hx2 := List.mem_filter.mp ((sortNat_perm _).mem_iff.mp hx)
    have h2 := hx2.2
    have h3 : ¬ x < id_low := by simpa using h2
    omega
  have hnz : ∀ x ∈ sortNat (rcache.filter (fun k => !(k < id_low))), x ≠ 0 := by
    intro x hx
    have := hmem x hx
    omega
  have hnds : (sortNat (rcache.filter (fun k => !(k < id_low)))).Nodup :=
    (sortNat_perm _).nodup_iff.mpr (hnd.filter _)
  have hchain : List.Chain' (· < ·) (sortNat (rcache.filter (fun k => !(k < id_low)))) := by
    have hlt := ((sortNat_sorted (rcache.filter (fun k => !(k < id_low)))).and hnds).imp
      (fun h => lt_of_le_of_ne h.1 h.2)
    exact hlt.chain'
  rw [make_read_list_eq]
  exact parse_render_sorted _ hchain hnz

/-- C5 counterexample: a topic with id_low = 1, id_high = 5 and read set
containing 10 compacts to the string 10, which represents the id 10 — not
the empty intersection of the read set with the interval 1..5, as the claim
requires (10 exceeds id_high). -/
theorem c5_counterexample :
    parse_read_list (make_read_list 1 [10]) = [10] ∧
    [10].filter (fun x => decide (1 ≤ x) && decide (x ≤ 5)) = ([] : List Nat) ∧
    ¬ (10 : Nat) ≤ 5 :=
  ⟨by decide, by decide, by decide⟩

/-- C5 amended: for a read table with distinct ids and id_low at least 1,
re-parsing the compacted string and recompacting yields the identical string
(idempotence); the ids the produced string represents are exactly the
original read set at or above id_low — entries above id_high are kept, so
the represented set is the original intersected with the ray from id_low,
not with the interval up to id_high; and the empty table compacts to the
string 0-0. -/
theorem c5_read_list (rcache : List Nat) (id_low : Nat)
    (hnd : rcache.Nodup) (hlow : 1 ≤ id_low) :
    make_read_list id_low (parse_read_list (make_read_list id_low rcache)) =
      make_read_list id_low rcache ∧
    (∀ x, x ∈ parse_read_list (make_read_list id_low rcache) ↔
      x ∈ rcache ∧ id_low ≤ x) ∧
    make_read_list id_low [] = [48, 45, 48] := by
  have key := parse_make_read_list rcache id_low hnd hlow
  refine ⟨?_, ?_, rfl⟩
  · rw [key]
    rw [make_read_list_eq id_low (sortNat (rcache.filter (fun k => !(k < id_low)))),
      make_read_list_eq id_low rcache]
    have hfix : (sortNat (rcache.filter (fun k => !(k < id_low)))).filter
        (fun k => !(k < id_low)) = sortNat (rcache.filter (fun k => !(k < id_low))) := by
      refine List.filter_eq_self.mpr ?_
      intro a ha
      exact (List.mem_filter.mp ((sortNat_perm _).mem_iff.mp ha)).2
    rw [hfix, sortNat_of_sorted _ (sortNat_sorted _)]
  · intro x
    rw [key]
    constructor
    · intro hx
      have h2 := List.mem_filter.mp ((sortNat_perm _).mem_iff.mp hx)
      have h3 : ¬ x < id_low := by simpa using h2.2
      exact ⟨h2.1, by omega⟩
    · rintro ⟨hx1, hx2⟩
      refine (sortNat_perm _).mem_iff.mpr (List.mem_filter.mpr ⟨hx1, ?_⟩)
      simp only [Bool.not_eq_true']
      simp
      omega

/-- C5 witness: the read set 4, 2, 9 with id_low 3 compacts to 4,9 and the
round trip reproduces it. -/
theorem c5_witness :
    make_read_list 3 (parse_read_list (make_read_list 3 [4, 2, 9])) =
      make_read_list 3 [4, 2, 9] :=
  (c5_read_list [4, 2, 9] 3 (by decide) (by decide)).1

end BlitzMail
